import Mathlib

/-!
Verification development for the GEDCOM parsing / tree-building core of the
`gedcom_extension` repository (files `src/lib/gedcom-parser.js` and
`src/lib/tree-builder.js`).

The JavaScript source is shallowly embedded below.  Conventions:

* JS `Map` objects (keyed by record id) are modelled as association lists
  `List (String × α)`; `Map.set` keeps the insertion position of an existing
  key (`mapSet`), `Map.get` is `mapGet`.
* JS strings are Lean `String`s; the few regular expressions the source uses
  are implemented character by character with the exact leftmost / greedy
  semantics of JS regexes (see `extractFrom`, `hasAtDotAt`, `parseLine`).
* `new Date(s)` (host date parsing) is an external dependency of the parser;
  it is modelled by an abstract argument `engine : String → Option Int`
  mapping the cleaned date text to `getFullYear()` of the resulting `Date`
  when the date is valid (`none` when `isNaN(dateObj.getTime())`).  Only the
  year of a parsed date is ever consumed by the core (in
  `TreeBuilder.findRootPerson`), so this captures everything the code reads.
* A JS exception escaping the per-line processing (the `null[0]` TypeError in
  `processIndividualField`'s FAMC/FAMS branch is the only reachable one) is
  modelled with `Except String`; `parse` catches it exactly like the
  `try/catch` in `GedcomParser.parse`.  The error text of a host TypeError is
  engine specific; the stand-in `nullIndexError` is used for it.
* Presentation-only fields of tree nodes (name, sex, birth, death, isAlive,
  dates, displayName, spouses, `_person`) are carried by no claim and are
  omitted from `TreeNode`; the structurally relevant fields (id, generation,
  relationship, children, parents) are all modelled.
-/

namespace Gedcom

/-! ## JS character classes -/

/-- JS `\\s` (whitespace) character class (space, tab, the line terminators
and the Unicode space separators), as used by `\\s*` in the line grammar and
by `String.prototype.trim`. -/
def jsWs (c : Char) : Bool :=
  let n := c.toNat
  n = 0x20 || n = 0x09 || n = 0x0a || n = 0x0b || n = 0x0c || n = 0x0d ||
  n = 0xa0 || n = 0x1680 || (0x2000 ≤ n && n ≤ 0x200a) ||
  n = 0x2028 || n = 0x2029 || n = 0x202f || n = 0x205f || n = 0x3000 ||
  n = 0xfeff

/-- JS `.` (dot, without the `s` flag): any char except the four line
terminators (LF, CR, LS, PS). -/
def jsDot (c : Char) : Bool :=
  let n := c.toNat
  !(n = 0x0a || n = 0x0d || n = 0x2028 || n = 0x2029)

def isDigitCh (c : Char) : Bool := '0' ≤ c && c ≤ '9'

def isTagStart (c : Char) : Bool := ('A' ≤ c && c ≤ 'Z') || c = '_'

def isTagChar (c : Char) : Bool :=
  ('A' ≤ c && c ≤ 'Z') || ('0' ≤ c && c ≤ '9') || c = '_'

/-- `String.prototype.trim` over a char list. -/
def trimList (l : List Char) : List Char :=
  ((l.dropWhile jsWs).reverse.dropWhile jsWs).reverse

/-- `value.trim()` on a Lean string. -/
def jsTrim (s : String) : String := String.mk (trimList s.data)

/-! ## The regular expressions of the source

`/@[^@]+@/` (id extraction) and `/@.+@/` (the FAMC/FAMS guard), with JS
leftmost-match semantics. -/

/-- Inner part of `@[^@]+@`: consume at least one non-`@` char, then a closing
`@`; returns the consumed chars and the remainder after the closing `@`. -/
def grabInner : List Char → List Char → Option (List Char × List Char)
  | [], _ => none
  | '@' :: r, acc => if acc.isEmpty then none else some (acc.reverse, r)
  | c :: r, acc => grabInner r (c :: acc)

/-- Leftmost match of `/@[^@]+@/`, returning the matched text
(`value.match(/@[^@]+@/)?.[0]`). -/
def extractFrom : List Char → Option (List Char)
  | [] => none
  | '@' :: rest =>
    match grabInner rest [] with
    | some (inner, _) => some ('@' :: (inner ++ ['@']))
    | none => extractFrom rest
  | _ :: rest => extractFrom rest

def extractXref (s : String) : Option String :=
  (extractFrom s.data).map String.mk

/-- Tail of an attempted `/@.+@/` match after the `.+` part has consumed at
least one char: scan for a closing `@` over `.`-matchable chars. -/
def dotRunCloses : List Char → Bool
  | [] => false
  | '@' :: _ => true
  | c :: r => jsDot c && dotRunCloses r

/-- Attempt `/@.+@/` right after an opening `@`. -/
def dotPlusAt : List Char → Bool
  | [] => false
  | c :: r => jsDot c && dotRunCloses r

/-- Whether `/@.+@/` matches anywhere in the list (`value.match(/@.+@/)`,
used as a Boolean guard). -/
def hasAtDotAtL : List Char → Bool
  | [] => false
  | '@' :: rest => dotPlusAt rest || hasAtDotAtL rest
  | _ :: rest => hasAtDotAtL rest

def hasAtDotAt (s : String) : Bool := hasAtDotAtL s.data

/-! ## Data model (`createIndividualRecord` / `createFamilyRecord`) -/

/-- `parseDate` result: `{raw, parsed, display}`.  `parsed` holds the
`getFullYear()` of the JS `Date` when construction succeeded (see the module
comment on `engine`). -/
structure ParsedDate where
  raw : String
  parsed : Option Int
  display : String
deriving DecidableEq, Repr

/-- The `name` sub-object of an individual.  The source field `prefix` is
called `pfx` here (the original name collides with a Lean keyword); no claim
touches it. -/
structure NameInfo where
  full : String := ""
  given : String := ""
  surname : String := ""
  nickname : String := ""
  pfx : String := ""
  suffix : String := ""
deriving DecidableEq, Repr

/-- `{date, place, notes}` event sub-object (birth/death/marriage/divorce). -/
structure EventInfo where
  date : Option ParsedDate := none
  place : Option String := none
  notes : Option String := none
deriving DecidableEq, Repr

/-- The `families` sub-object of an individual. -/
structure FamLinks where
  child : List String := []
  spouse : List String := []
deriving DecidableEq, Repr

structure Individual where
  id : String
  name : NameInfo := {}
  sex : String := "U"
  birth : EventInfo := {}
  death : EventInfo := {}
  events : List (String × String) := []
  attributes : List (String × String) := []
  families : FamLinks := {}
  notes : List String := []
  sources : List String := []
deriving DecidableEq, Repr

structure Family where
  id : String
  husband : Option String := none
  wife : Option String := none
  children : List String := []
  marriage : EventInfo := {}
  divorce : EventInfo := {}
  events : List (String × String) := []
  notes : List String := []
  sources : List String := []
deriving DecidableEq, Repr

/-- `createIndividualRecord(xref)`. -/
def createIndividualRecord (xref : String) : Individual := { id := xref }

/-- `createFamilyRecord(xref)`. -/
def createFamilyRecord (xref : String) : Family := { id := xref }

/-! ## Association-list model of `Map` -/

def mapGet {α : Type} : List (String × α) → String → Option α
  | [], _ => none
  | (k', v) :: m, k => if k' = k then some v else mapGet m k

/-- `Map.set`: replace in place when the key exists, append otherwise. -/
def mapSet {α : Type} : List (String × α) → String → α → List (String × α)
  | [], k, v => [(k, v)]
  | (k', v') :: m, k, v =>
    if k' = k then (k, v) :: m else (k', v') :: mapSet m k v

@[simp] theorem mapGet_nil {α : Type} (k : String) :
    mapGet ([] : List (String × α)) k = none := rfl

@[simp] theorem mapGet_cons {α : Type} (k' k : String) (v : α) (m : List (String × α)) :
    mapGet ((k', v) :: m) k = if k' = k then some v else mapGet m k := rfl

theorem mapGet_mapSet_self {α : Type} (m : List (String × α)) (k : String) (v : α) :
    mapGet (mapSet m k v) k = some v := by
  induction m with
  | nil => simp [mapSet]
  | cons p m ih =>
    obtain ⟨k', v'⟩ := p
    by_cases h : k' = k <;> simp [mapSet, h, ih]

theorem mapGet_mapSet_ne {α : Type} (m : List (String × α)) (k k' : String) (v : α)
    (h : k ≠ k') : mapGet (mapSet m k v) k' = mapGet m k' := by
  induction m with
  | nil => simp [mapSet, h]
  | cons p m ih =>
    obtain ⟨k₀, v₀⟩ := p
    by_cases h₀ : k₀ = k
    · subst h₀; simp [mapSet, h]
    · simp only [mapSet, if_neg h₀, mapGet_cons]
      by_cases h₁ : k₀ = k' <;> simp [h₁, ih]

theorem mem_mapSet {α : Type} (m : List (String × α)) (k : String) (v : α)
    (p : String × α) (hp : p ∈ mapSet m k v) : p ∈ m ∨ p = (k, v) := by
  induction m with
  | nil => simp [mapSet] at hp; simp [hp]
  | cons q m ih =>
    obtain ⟨k', v'⟩ := q
    by_cases h : k' = k
    · simp [mapSet, h] at hp
      rcases hp with h1 | h1
      · right; simp [h1]
      · left; simp [h1]
    · simp [mapSet, h] at hp
      rcases hp with h1 | h1
      · left; simp [h1]
      · rcases ih h1 with h2 | h2
        · left; simp [h2]
        · right; exact h2

theorem mapGet_mem {α : Type} (m : List (String × α)) (k : String) (v : α)
    (h : mapGet m k = some v) : (k, v) ∈ m := by
  induction m with
  | nil => simp [mapGet] at h
  | cons p m ih =>
    obtain ⟨k', v'⟩ := p
    by_cases h0 : k' = k
    · subst h0; simp [mapGet] at h; simp [h]
    · simp [mapGet, h0] at h
      exact List.mem_cons_of_mem _ (ih h)

/-! ## Line model (`parseLine`, `preprocessLines`) -/

/-- One parsed GEDCOM line: `LEVEL [XREF] TAG [VALUE]`. -/
structure Line where
  level : Nat
  xref : Option String
  tag : String
  value : String
  lineNumber : Nat
deriving DecidableEq, Repr

/-- Abbreviation for building a `Line` (argument order of the fields). -/
def mkLine (level : Nat) (xref : Option String) (tag value : String)
    (lineNumber : Nat) : Line :=
  { level := level, xref := xref, tag := tag, value := value,
    lineNumber := lineNumber }

def natOfDigits (ds : List Char) : Nat :=
  ds.foldl (fun n c => n * 10 + (c.toNat - 48)) 0

/-- `parseLine(line, lineNumber)`: match the trimmed line against
`/^(\d+)\s*(@[^@]+@)?\s*([A-Z_][A-Z0-9_]*)\s*(.*)?$/` and build the line
object; `none` models the regex failing (the caller records a warning).  The
regex is deterministic here: every backtracking alternative of the greedy
parse fails exactly when the greedy parse fails (digits, `@`, and tag-start
characters are in disjoint classes). -/
def parseLine (chars : List Char) (lineNumber : Nat) : Option Line :=
  let ds := chars.takeWhile isDigitCh
  let r1 := chars.dropWhile isDigitCh
  if ds.isEmpty then none
  else
    let r2 := r1.dropWhile jsWs
    let xr : Option String × List Char :=
      match r2 with
      | '@' :: rest =>
        match grabInner rest [] with
        | some (inner, after) => (some (String.mk ('@' :: (inner ++ ['@']))), after)
        | none => (none, r2)
      | _ => (none, r2)
    let r4 := xr.2.dropWhile jsWs
    match r4 with
    | c :: rest =>
      if isTagStart c then
        let tcs := rest.takeWhile isTagChar
        let r5 := rest.dropWhile isTagChar
        let r6 := r5.dropWhile jsWs
        if r6.all jsDot then
          some { level := natOfDigits ds, xref := xr.1, tag := String.mk (c :: tcs),
                 value := String.mk (trimList r6), lineNumber := lineNumber }
        else none
      else none
    | [] => none

/-- The two sequential `replace` calls of `preprocessLines`
(`\r\n -> \n`, then `\r -> \n`), fused into one scan. -/
def normalizeNewlines : List Char → List Char
  | [] => []
  | '\r' :: '\n' :: rest => '\n' :: normalizeNewlines rest
  | '\r' :: rest => '\n' :: normalizeNewlines rest
  | c :: rest => c :: normalizeNewlines rest

/-- Walk the raw (split) lines, skipping blank ones; invalid lines produce a
warning, valid ones a `Line`.  Both output lists are in document order. -/
def preprocessGo : List (List Char) → Nat → List Line × List String
  | [], _ => ([], [])
  | raw :: rest, i =>
    let t := trimList raw
    let r := preprocessGo rest (i + 1)
    if t.isEmpty then r
    else
      match parseLine t (i + 1) with
      | some l => (l :: r.1, r.2)
      | none =>
        (r.1, ("Line " ++ toString (i + 1) ++ ": Invalid GEDCOM format - " ++ String.mk t) :: r.2)

/-- `preprocessLines(content)`: normalize line endings, split, trim, parse. -/
def preprocessLines (content : String) : List Line × List String :=
  preprocessGo ((normalizeNewlines content.data).splitOn '\n') 0

/-! ## Dates and names -/

/-- `/^(ABT|AFT|BEF|BET|CAL|EST)\s+/i`: does the upper-cased 3-letter head
form a recognized qualifier? -/
def isQualTriple (c1 c2 c3 : Char) : Bool :=
  let u := [c1.toUpper, c2.toUpper, c3.toUpper]
  u = ['A', 'B', 'T'] || u = ['A', 'F', 'T'] || u = ['B', 'E', 'F'] ||
  u = ['B', 'E', 'T'] || u = ['C', 'A', 'L'] || u = ['E', 'S', 'T']

/-- `dateValue.replace(/^(ABT|AFT|BEF|BET|CAL|EST)\s+/i, '')`. -/
def stripQualifier (s : String) : String :=
  match s.data with
  | c1 :: c2 :: c3 :: c4 :: rest =>
    if isQualTriple c1 c2 c3 && jsWs c4 then String.mk (rest.dropWhile jsWs) else s
  | _ => s

/-- `parseDate(dateValue)`; `engine` stands for the host `new Date(...)`
constructor (see the module comment). -/
def parseDate (engine : String → Option Int) (dateValue : String) : Option ParsedDate :=
  if dateValue = "" then none
  else some { raw := dateValue, parsed := engine (stripQualifier dateValue),
              display := dateValue }

/-- Inner part of `/\/([^\/]+)\//`, analogous to `grabInner`. -/
def grabInnerSlash : List Char → List Char → Option (List Char × List Char)
  | [], _ => none
  | '/' :: r, acc => if acc.isEmpty then none else some (acc.reverse, r)
  | c :: r, acc => grabInnerSlash r (c :: acc)

/-- Leftmost match of `/\/([^\/]+)\//` against a NAME value, returning
(text before the match, surname capture, text after the match). -/
def splitSlashName : List Char → Option (List Char × List Char × List Char)
  | [] => none
  | '/' :: rest =>
    match grabInnerSlash rest [] with
    | some (inner, after) => some ([], inner, after)
    | none => (splitSlashName rest).map (fun t => ('/' :: t.1, t.2.1, t.2.2))
  | c :: rest => (splitSlashName rest).map (fun t => (c :: t.1, t.2.1, t.2.2))

/-- `parseName(nameValue, individual)`. -/
def parseName (nameValue : String) (ind : Individual) : Individual :=
  if nameValue = "" then ind
  else
    match splitSlashName nameValue.data with
    | some (before, inner, after) =>
      let surname := String.mk (trimList inner)
      let beforeSurname := String.mk (trimList before)
      let afterSurname := String.mk (trimList after)
      let base := { ind with name := { ind.name with
        given := beforeSurname, surname := surname,
        full := jsTrim (beforeSurname ++ " " ++ surname) } }
      if afterSurname = "" then base
      else { base with name := { base.name with suffix := afterSurname } }
    | none =>
      { ind with name := { ind.name with
        given := jsTrim nameValue, surname := "", full := jsTrim nameValue } }

/-! ## Record assembly (`parseLines` and the per-field processors) -/

/-- Context-stack entries: the bottom sentinel stands for the record object
that `parseLines` puts at index 0 of `recordStack`; the others are the string
markers pushed by `BIRT`/`DEAT`/`MARR`/`DIV`. -/
inductive StackEntry where
  | record | birth | death | marriage | divorce
deriving DecidableEq, Repr

/-- Which map the current top-level record lives in (the
`currentRecord` pointer). -/
inductive CurRec where
  | indi (id : String)
  | fam (id : String)
deriving DecidableEq, Repr

structure LState where
  individuals : List (String × Individual) := []
  families : List (String × Family) := []
  current : Option CurRec := none
  stack : List StackEntry := []
deriving Repr

def initLState : LState := {}

/-- Stand-in for the host TypeError message raised by
`value.match(/@[^@]+@/)[0]` when the match is `null` (the exact text is
host specific). -/
def nullIndexError : String := "Cannot read properties of null (reading 0)"

/-- `value || extraction`: `xref || value.match(/@[^@]+@/)?.[0]`, the
optional-chained id resolution used by HUSB/WIFE/CHIL. -/
def resolveIdOpt (xref : Option String) (value : String) : Option String :=
  match xref with
  | some x => some x
  | none => extractXref value

/-- `processIndividualField`.  The FAMC/FAMS branches reproduce the unguarded
`value.match(/@[^@]+@/)[0]` indexing: when the `/@.+@/` guard holds but the
extraction regex has no match, a TypeError escapes (modelled as `.error`). -/
def processIndividualField (engine : String → Option Int) (line : Line)
    (ind : Individual) (stack : List StackEntry) :
    Except String (Individual × List StackEntry) :=
  match line.tag with
  | "NAME" => .ok (parseName line.value ind, stack)
  | "SEX" => .ok ({ ind with sex := line.value.map Char.toUpper }, stack)
  | "BIRT" => .ok (ind, stack ++ [.birth])
  | "DEAT" => .ok (ind, stack ++ [.death])
  | "DATE" =>
    if stack.contains StackEntry.birth then
      .ok ({ ind with birth := { ind.birth with date := parseDate engine line.value } }, stack)
    else if stack.contains StackEntry.death then
      .ok ({ ind with death := { ind.death with date := parseDate engine line.value } }, stack)
    else .ok (ind, stack)
  | "PLAC" =>
    if stack.contains StackEntry.birth then
      .ok ({ ind with birth := { ind.birth with place := some line.value } }, stack)
    else if stack.contains StackEntry.death then
      .ok ({ ind with death := { ind.death with place := some line.value } }, stack)
    else .ok (ind, stack)
  | "FAMC" =>
    match line.xref with
    | some x =>
      .ok ({ ind with families := { ind.families with child := ind.families.child ++ [x] } }, stack)
    | none =>
      if hasAtDotAt line.value then
        match extractXref line.value with
        | some familyId =>
          .ok ({ ind with families := { ind.families with child := ind.families.child ++ [familyId] } }, stack)
        | none => .error nullIndexError
      else .ok (ind, stack)
  | "FAMS" =>
    match line.xref with
    | some x =>
      .ok ({ ind with families := { ind.families with spouse := ind.families.spouse ++ [x] } }, stack)
    | none =>
      if hasAtDotAt line.value then
        match extractXref line.value with
        | some familyId =>
          .ok ({ ind with families := { ind.families with spouse := ind.families.spouse ++ [familyId] } }, stack)
        | none => .error nullIndexError
      else .ok (ind, stack)
  | "NOTE" => .ok ({ ind with notes := ind.notes ++ [line.value] }, stack)
  | _ =>
    if line.level = 1 then
      .ok ({ ind with attributes := ind.attributes ++ [(line.tag, line.value)] }, stack)
    else .ok (ind, stack)

/-- `processFamilyField` (never throws: HUSB/WIFE/CHIL use `?.[0]`). -/
def processFamilyField (engine : String → Option Int) (line : Line)
    (fam : Family) (stack : List StackEntry) : Family × List StackEntry :=
  match line.tag with
  | "HUSB" => ({ fam with husband := resolveIdOpt line.xref line.value }, stack)
  | "WIFE" => ({ fam with wife := resolveIdOpt line.xref line.value }, stack)
  | "CHIL" =>
    match resolveIdOpt line.xref line.value with
    | some childId => ({ fam with children := fam.children ++ [childId] }, stack)
    | none => (fam, stack)
  | "MARR" => (fam, stack ++ [.marriage])
  | "DIV" => (fam, stack ++ [.divorce])
  | "DATE" =>
    if stack.contains StackEntry.marriage then
      ({ fam with marriage := { fam.marriage with date := parseDate engine line.value } }, stack)
    else if stack.contains StackEntry.divorce then
      ({ fam with divorce := { fam.divorce with date := parseDate engine line.value } }, stack)
    else (fam, stack)
  | "PLAC" =>
    if stack.contains StackEntry.marriage then
      ({ fam with marriage := { fam.marriage with place := some line.value } }, stack)
    else if stack.contains StackEntry.divorce then
      ({ fam with divorce := { fam.divorce with place := some line.value } }, stack)
    else (fam, stack)
  | "NOTE" => ({ fam with notes := fam.notes ++ [line.value] }, stack)
  | _ =>
    if line.level = 1 then
      ({ fam with events := fam.events ++ [(line.tag, line.value)] }, stack)
    else (fam, stack)

/-- One iteration of the `parseLines` loop.  Level-0 lines start (or reset)
the current record; deeper lines go through `processSubRecord`: the context
stack is truncated to the line level (`while length > level: pop` equals
`take level`), then the field processor of the current record type runs.
Mutation of the aliased `currentRecord` is modelled by writing the updated
record back to its map under the same key (the `mapGet _ = none` fallbacks
are unreachable because `current` always points at an existing key). -/
def stepLine (engine : String → Option Int) (st : LState) (line : Line) :
    Except String LState :=
  if line.level = 0 then
    match line.tag, line.xref with
    | "INDI", some x =>
      .ok { st with individuals := mapSet st.individuals x (createIndividualRecord x),
                    current := some (.indi x), stack := [.record] }
    | "FAM", some x =>
      .ok { st with families := mapSet st.families x (createFamilyRecord x),
                    current := some (.fam x), stack := [.record] }
    | _, _ => .ok { st with current := none, stack := [.record] }
  else
    match st.current with
    | none => .ok st
    | some cur =>
      let stack1 := st.stack.take line.level
      match cur with
      | .indi iid =>
        match mapGet st.individuals iid with
        | none => .ok { st with stack := stack1 }
        | some ind =>
          match processIndividualField engine line ind stack1 with
          | .ok r =>
            .ok { st with individuals := mapSet st.individuals iid r.1, stack := r.2 }
          | .error e => .error e
      | .fam fid =>
        match mapGet st.families fid with
        | none => .ok { st with stack := stack1 }
        | some fam =>
          let r := processFamilyField engine line fam stack1
          .ok { st with families := mapSet st.families fid r.1, stack := r.2 }

/-- The `parseLines` loop over all preprocessed lines. -/
def runLines (engine : String → Option Int) :
    List Line → LState → Except String LState
  | [], st => .ok st
  | l :: ls, st =>
    match stepLine engine st l with
    | .ok st2 => runLines engine ls st2
    | .error e => .error e

/-! ## `linkFamilyRelationships` -/

/-- Child-side repair for one `families.child` entry of one individual. -/
def famStepChild (indId : String) (fs : List (String × Family))
    (familyId : String) : List (String × Family) :=
  match mapGet fs familyId with
  | some family =>
    if indId ∈ family.children then fs
    else mapSet fs familyId { family with children := family.children ++ [indId] }
  | none => fs

/-- Spouse-side repair for one `families.spouse` entry of one individual. -/
def famStepSpouse (ind : Individual) (fs : List (String × Family))
    (familyId : String) : List (String × Family) :=
  match mapGet fs familyId with
  | some family =>
    if ind.sex = "M" ∧ family.husband = none then
      mapSet fs familyId { family with husband := some ind.id }
    else if ind.sex = "F" ∧ family.wife = none then
      mapSet fs familyId { family with wife := some ind.id }
    else fs
  | none => fs

/-- The body of the `for (const individual of this.individuals.values())`
loop. -/
def linkOne (fs : List (String × Family)) (ind : Individual) :
    List (String × Family) :=
  ind.families.spouse.foldl (famStepSpouse ind)
    (ind.families.child.foldl (famStepChild ind.id) fs)

/-- `linkFamilyRelationships()`: the post-pass over every individual. -/
def linkFamilyRelationships (fs : List (String × Family))
    (inds : List (String × Individual)) : List (String × Family) :=
  inds.foldl (fun acc p => linkOne acc p.2) fs

/-! ## `parse` -/

structure ParseStats where
  individuals : Nat
  families : Nat
  errors : Nat
  warnings : Nat
deriving DecidableEq, Repr

/-- The `{success, ...}` envelope returned by `GedcomParser.parse`. -/
inductive ParseResult where
  | success (individuals : List Individual) (families : List Family)
      (stats : ParseStats) (errors : List String) (warnings : List String)
  | failure (error : String) (errors : List String) (warnings : List String)
deriving DecidableEq, Repr

/-- `GedcomParser.parse(gedcomContent)`: preprocess, assemble records, link,
and wrap; a thrown error is caught and reported as `success:false` with a
`Critical parsing error` entry appended to the (empty) errors array. -/
def parse (engine : String → Option Int) (content : String) : ParseResult :=
  let pre := preprocessLines content
  match runLines engine pre.1 initLState with
  | .ok st =>
    let fams2 := linkFamilyRelationships st.families st.individuals
    .success (st.individuals.map (fun p => p.2)) (fams2.map (fun p => p.2))
      { individuals := st.individuals.length, families := fams2.length,
        errors := 0, warnings := pre.2.length }
      [] pre.2
  | .error msg =>
    .failure msg [("Critical parsing error: " ++ msg)] pre.2

/-! Projections on the envelope (for stating concrete evaluations). -/

def resSuccess : ParseResult → Bool
  | .success _ _ _ _ _ => true
  | .failure _ _ _ => false

def resIndividuals : ParseResult → List Individual
  | .success is _ _ _ _ => is
  | .failure _ _ _ => []

def resFamilies : ParseResult → List Family
  | .success _ fs _ _ _ => fs
  | .failure _ _ _ => []

/-- A concrete date engine for closed test documents that contain no DATE
lines (any engine would do there). -/
def noEngine : String → Option Int := fun _ => none

/-! ## TreeBuilder: nodes

`TreeNode` carries the structural fields of `createTreeNode` plus the
`relationship` tag that the traversals assign after the recursive call;
purely presentational fields are omitted (see the module comment). -/

inductive TreeNode where
  | mk (id : String) (generation : Nat) (relationship : Option String)
       (children : Option (List TreeNode)) (parents : Option (List TreeNode))

def TreeNode.id : TreeNode → String
  | .mk i _ _ _ _ => i

def TreeNode.generation : TreeNode → Nat
  | .mk _ g _ _ _ => g

def TreeNode.relationship : TreeNode → Option String
  | .mk _ _ r _ _ => r

def TreeNode.children : TreeNode → Option (List TreeNode)
  | .mk _ _ _ c _ => c

def TreeNode.parents : TreeNode → Option (List TreeNode)
  | .mk _ _ _ _ p => p

/-- `node.relationship = tag` (the post-assignment done by the traversals). -/
def TreeNode.withRelationship : TreeNode → String → TreeNode
  | .mk i g _ c p, r => .mk i g (some r) c p

/-- `node.children = cs` (used by the combined-tree merge). -/
def TreeNode.withChildren : TreeNode → Option (List TreeNode) → TreeNode
  | .mk i g r _ p, c => .mk i g r c p

@[simp] theorem TreeNode.id_mk (i g r c p) : (TreeNode.mk i g r c p).id = i := rfl
@[simp] theorem TreeNode.generation_mk (i g r c p) :
    (TreeNode.mk i g r c p).generation = g := rfl
@[simp] theorem TreeNode.children_mk (i g r c p) :
    (TreeNode.mk i g r c p).children = c := rfl
@[simp] theorem TreeNode.parents_mk (i g r c p) :
    (TreeNode.mk i g r c p).parents = p := rfl

@[simp] theorem TreeNode.generation_withRelationship (t : TreeNode) (r : String) :
    (t.withRelationship r).generation = t.generation := by
  cases t; rfl

@[simp] theorem TreeNode.children_withRelationship (t : TreeNode) (r : String) :
    (t.withRelationship r).children = t.children := by
  cases t; rfl

@[simp] theorem TreeNode.parents_withRelationship (t : TreeNode) (r : String) :
    (t.withRelationship r).parents = t.parents := by
  cases t; rfl

/-- Node membership in a tree: `InTree n t` holds when `n` is reachable from
the root `t` along `children` / `parents` edges ("every node in the tree"). -/
inductive InTree : TreeNode → TreeNode → Prop where
  | here (t : TreeNode) : InTree t t
  | viaChild {n t : TreeNode} {cs : List TreeNode} {c : TreeNode} :
      t.children = some cs → c ∈ cs → InTree n c → InTree n t
  | viaParent {n t : TreeNode} {cs : List TreeNode} {c : TreeNode} :
      t.parents = some cs → c ∈ cs → InTree n c → InTree n t

/-- The structural part of `createTreeNode(person, generation)`:
`children` starts `null`, `parents` unset, `relationship` unset. -/
def createTreeNode (person : Individual) (generation : Nat) : TreeNode :=
  .mk person.id generation none none none

/-! ## TreeBuilder: traversals -/

/-- `buildAncestorTree(personId, generation)`.  Only the first child-family
is honoured; the father/mother subtrees (tagged via `withRelationship`) form
the `parents` list, which is also aliased into `children`. -/
def buildAncestorTree (inds : List (String × Individual))
    (fams : List (String × Family)) (maxGen : Int) (personId : String)
    (generation : Nat) : Option TreeNode :=
  match mapGet inds personId with
  | none => none
  | some person =>
    if h : (generation : Int) ≥ maxGen then none
    else
      let parents : List TreeNode :=
        match person.families.child with
        | [] => []
        | fid :: _ =>
          match mapGet fams fid with
          | none => []
          | some parentFamily =>
            (match parentFamily.husband with
             | some hid =>
               match buildAncestorTree inds fams maxGen hid (generation + 1) with
               | some father => [father.withRelationship ("father")]
               | none => []
             | none => []) ++
            (match parentFamily.wife with
             | some wid =>
               match buildAncestorTree inds fams maxGen wid (generation + 1) with
               | some mother => [mother.withRelationship ("mother")]
               | none => []
             | none => [])
      if parents.isEmpty then some (createTreeNode person generation)
      else some (.mk person.id generation none (some parents) (some parents))
termination_by (maxGen - generation).toNat
decreasing_by all_goals (simp at h; omega)

/-- `buildDescendantTree(personId, generation)`: fan out over every
spouse-family, collecting children in family-list then child-list order. -/
def buildDescendantTree (inds : List (String × Individual))
    (fams : List (String × Family)) (maxGen : Int) (personId : String)
    (generation : Nat) : Option TreeNode :=
  match mapGet inds personId with
  | none => none
  | some person =>
    if h : (generation : Int) ≥ maxGen then none
    else
      let childNodes : List TreeNode :=
        person.families.spouse.foldl (fun acc familyId =>
          acc ++
            (match mapGet fams familyId with
             | some family =>
               family.children.foldl (fun acc2 childId =>
                 acc2 ++
                   (match buildDescendantTree inds fams maxGen childId (generation + 1) with
                    | some child => [child.withRelationship ("child")]
                    | none => [])) []
             | none => [])) []
      if childNodes.isEmpty then some (createTreeNode person generation)
      else some (.mk person.id generation none (some childNodes) none)
termination_by (maxGen - generation).toNat
decreasing_by all_goals (simp at h; omega)

/-- `buildCombinedTree(rootPersonId)`: ancestor tree grafted with the
descendant tree's top-level children (the generation-halving computation is
dead code in the source and is kept as an unused binding). -/
def buildCombinedTree (inds : List (String × Individual))
    (fams : List (String × Family)) (maxGen : Int) (rootPersonId : String) :
    Option TreeNode :=
  let _ancestorGenerations : Int := maxGen.fdiv 2
  let _descendantGenerations : Int := maxGen - maxGen.fdiv 2
  let ancestorTree := buildAncestorTree inds fams maxGen rootPersonId 0
  let descendantTree := buildDescendantTree inds fams maxGen rootPersonId 0
  match ancestorTree, descendantTree with
  | some a, some d =>
    match d.children with
    | some dcs => some (a.withChildren (some ((a.children.getD []) ++ dcs)))
    | none => some a
  | some a, none => some a
  | none, _ => none

/-! ## TreeBuilder: counting and the public entry point -/

mutual

/-- `countNodes(node)` on a non-null node: 1 plus the recursive counts over
`children` and `parents` (both, as in the source — ancestor trees alias the
two lists and are double counted; no claim depends on that). -/
def TreeNode.count : TreeNode → Nat
  | .mk _ _ _ c p => 1 + countOptList c + countOptList p

def countOptList : Option (List TreeNode) → Nat
  | none => 0
  | some l => countList l

def countList : List TreeNode → Nat
  | [] => 0
  | t :: ts => TreeNode.count t + countList ts

end

/-- `countNodes(node)` including the `if (!node) return 0` case. -/
def countNodes : Option TreeNode → Nat
  | none => 0
  | some t => t.count

/-- The recognized option bag of `buildTree` (absent entries take the
destructuring defaults). -/
structure BuildOptions where
  maxGenerations : Option Int := none
  treeType : Option String := none
  includeSpouses : Option Bool := none
  includeSiblings : Option Bool := none

structure TreeMetadata where
  rootPersonId : String
  treeType : String
  maxGenerations : Int
  totalNodes : Nat
  includeSpouses : Bool
  includeSiblings : Bool

structure TreeResult where
  root : Option TreeNode
  metadata : TreeMetadata

/-- `TreeBuilder.buildTree(rootPersonId, options)`.  The two `throw`
statements are the `.error` branches. -/
def buildTree (inds : List (String × Individual))
    (fams : List (String × Family)) (rootPersonId : String)
    (options : BuildOptions) : Except String TreeResult :=
  let maxGen := options.maxGenerations.getD 5
  let treeType := options.treeType.getD ("ancestors")
  let includeSpouses := options.includeSpouses.getD true
  let includeSiblings := options.includeSiblings.getD false
  match mapGet inds rootPersonId with
  | none => .error ("Person with ID " ++ rootPersonId ++ " not found")
  | some _rootPerson =>
    let treeData : Except String (Option TreeNode) :=
      if treeType = "ancestors" then
        .ok (buildAncestorTree inds fams maxGen rootPersonId 0)
      else if treeType = "descendants" then
        .ok (buildDescendantTree inds fams maxGen rootPersonId 0)
      else if treeType = "both" then
        .ok (buildCombinedTree inds fams maxGen rootPersonId)
      else .error ("Unknown tree type: " ++ treeType)
    match treeData with
    | .error e => .error e
    | .ok td =>
      .ok { root := td,
            metadata := { rootPersonId := rootPersonId, treeType := treeType,
                          maxGenerations := maxGen, totalNodes := countNodes td,
                          includeSpouses := includeSpouses,
                          includeSiblings := includeSiblings } }

/-! ## `findRootPerson` -/

structure RootPrefs where
  useFirst : Bool := true
  preferEarliest : Bool := false
  preferMostConnections : Bool := false
  preferMales : Bool := false

/-- The additive score of the opt-in scored-preference mode of
`findRootPerson` (the `person._score` computation).  JS numbers are modelled
as rationals; every arithmetic step the code performs on scores is exact or
monotone under float rounding, so comparisons agree. -/
def rootScore (prefs : RootPrefs) (person : Individual) : ℚ :=
  let s0 : ℚ := 0
  let s1 : ℚ :=
    match person.birth.date with
    | some d =>
      let sBase := s0 + 10
      if prefs.preferEarliest = true then
        match d.parsed with
        | some year => sBase + (max 0 (2100 - (year : ℚ))) / 10
        | none => sBase
      else sBase
    | none => s0
  let s2 : ℚ :=
    if prefs.preferMostConnections = true then
      s1 + ((person.families.child.length + person.families.spouse.length : ℕ) : ℚ) * 5
    else s1
  let s3 : ℚ :=
    if prefs.preferMales = true ∧ person.sex = "M" then s2 + 3
    else if (¬ prefs.preferMales = true) ∧ person.sex = "F" then s2 + 3
    else s2
  if person.name.given ≠ "" ∧ person.name.surname ≠ "" then s3 + 5 else s3

/-- The name-text filter used both by the `useFirst` shortcut and by the
candidate restriction (`person.name.full || person.name.given`). -/
def hasNameText (person : Individual) : Bool :=
  !(person.name.full = "") || !(person.name.given = "")

/-- `findRootPerson(individuals, preferences)`. -/
def findRootPerson (individuals : List Individual) (prefs : RootPrefs) :
    Option String :=
  if individuals.isEmpty then none
  else
    let firstTry : Option String :=
      if prefs.useFirst then (individuals.find? hasNameText).map (fun p => p.id)
      else none
    match firstTry with
    | some i => some i
    | none =>
      let candidates := individuals.filter hasNameText
      match candidates with
      | [] => (individuals.head?).map (fun p => p.id)
      | c0 :: _ =>
        if prefs.preferEarliest || prefs.preferMostConnections || prefs.preferMales then
          let sorted := candidates.mergeSort
            (fun a b => decide (rootScore prefs b ≤ rootScore prefs a))
          match sorted with
          | s0 :: _ => some s0.id
          | [] => none
        else some c0.id

/-! # Claims -/

/-- C1.  Evaluation of the code at the failing input: `parse('')` returns
`success:true` with empty `individuals`/`families` arrays and no top-level
error — the claim (and the repository's own `testEdgeCases`, which asserts
`!emptyResult.success` for empty input) says it must report `success:false`
with a top-level error message. -/
theorem parse_empty_returns_success (engine : String → Option Int) :
    parse engine "" =
      .success [] [] { individuals := 0, families := 0, errors := 0, warnings := 0 }
        [] [] := rfl

/-- C2, counterexample.  A family with two HUSB lines (each carrying a
resolvable id) ends up with the id of the LAST line, not the first; same for
WIFE.  The claim "first occurrence wins — later duplicate lines for the same
tag do not overwrite" is false at this input. -/
theorem husb_first_occurrence_counterexample :
    (resFamilies (parse noEngine
        ("0 @F1@ FAM\n1 HUSB @I1@\n1 HUSB @I2@\n0 @F2@ FAM\n1 WIFE @I3@\n1 WIFE @I4@"))).map
        (fun f => (f.id, f.husband, f.wife)) =
      [(("@F1@"), some ("@I2@"), none), (("@F2@"), none, some ("@I4@"))] ∧
    ¬ (resFamilies (parse noEngine
        ("0 @F1@ FAM\n1 HUSB @I1@\n1 HUSB @I2@\n0 @F2@ FAM\n1 WIFE @I3@\n1 WIFE @I4@"))).map
        (fun f => f.husband) = [some ("@I1@"), none] := by
  constructor
  · rfl
  · decide

/-- C2, amended.  `processFamilyField` on a HUSB (resp. WIFE) line whose id
resolves assigns that id unconditionally: the LAST such line wins, and a
later duplicate line for the same tag DOES overwrite the field (whatever its
previous value). -/
theorem husb_last_occurrence_wins (engine : String → Option Int)
    (lvl n : Nat) (xr : Option String) (v : String) (fam : Family)
    (stack : List StackEntry) (i : String)
    (hres : resolveIdOpt xr v = some i) :
    (processFamilyField engine (mkLine lvl xr ("HUSB") v n) fam stack).1.husband = some i ∧
    (processFamilyField engine (mkLine lvl xr ("WIFE") v n) fam stack).1.wife = some i := by
  constructor <;> simp [processFamilyField, mkLine, hres]

theorem husb_last_occurrence_wins_witness :
    resolveIdOpt (some ("@I9@")) "" = some ("@I9@") ∧
    (processFamilyField noEngine (mkLine 1 (some ("@I9@")) ("HUSB") "" 2)
        { id := ("@F1@"), husband := some ("@I1@") } []).1.husband = some ("@I9@") := by
  refine ⟨rfl, ?_⟩
  exact (husb_last_occurrence_wins noEngine 1 2 (some ("@I9@")) ""
    { id := ("@F1@"), husband := some ("@I1@") } [] ("@I9@") rfl).1

/-- C8, counterexample.  A FAMC line whose VALUE is `@@@` has no inline XREF
and no extractable `@[^@]+@` token, yet the parse does NOT complete
successfully: the `/@.+@/` guard passes while the extraction returns null,
so `null[0]` throws and the parse reports `success:false` — refuting "the
reference is dropped with no error and the overall parse still completes
successfully for all such VALUE strings". -/
theorem famc_atatat_counterexample :
    extractXref ("@@@") = none ∧
    resSuccess (parse noEngine ("0 @I1@ INDI\n1 FAMC @@@")) = false ∧
    parse noEngine ("0 @I1@ INDI\n1 FAMC @@@") =
      .failure nullIndexError [("Critical parsing error: " ++ nullIndexError)] [] := by
  refine ⟨rfl, rfl, rfl⟩

/-- C8, amended.  For a FAMC/FAMS line with no inline XREF: when the VALUE
has no `/@.+@/` match at all, the reference is dropped silently (record and
stack unchanged, no error or warning, processing continues normally); but
when `/@.+@/` matches while no `/@[^@]+@/` token can be extracted, a
TypeError escapes and the parse aborts as a catastrophic failure. -/
theorem famc_fams_drop_amended (engine : String → Option Int)
    (lvl n : Nat) (v : String) (ind : Individual) (stack : List StackEntry) :
    (hasAtDotAt v = false →
      processIndividualField engine (mkLine lvl none ("FAMC") v n) ind stack =
          .ok (ind, stack) ∧
      processIndividualField engine (mkLine lvl none ("FAMS") v n) ind stack =
          .ok (ind, stack)) ∧
    (hasAtDotAt v = true → extractXref v = none →
      processIndividualField engine (mkLine lvl none ("FAMC") v n) ind stack =
          .error nullIndexError ∧
      processIndividualField engine (mkLine lvl none ("FAMS") v n) ind stack =
          .error nullIndexError) := by
  constructor
  · intro hguard
    constructor <;> simp [processIndividualField, mkLine, hguard]
  · intro hguard hext
    constructor <;> simp [processIndividualField, mkLine, hguard, hext]

theorem famc_fams_drop_amended_witness :
    (hasAtDotAt ("no id here") = false ∧
      processIndividualField noEngine (mkLine 1 none ("FAMC") ("no id here") 2)
          (createIndividualRecord ("@I1@")) [.record] =
        .ok (createIndividualRecord ("@I1@"), [.record])) ∧
    (hasAtDotAt ("@@@") = true ∧ extractXref ("@@@") = none ∧
      processIndividualField noEngine (mkLine 1 none ("FAMS") ("@@@") 2)
          (createIndividualRecord ("@I1@")) [.record] = .error nullIndexError) := by
  refine ⟨⟨rfl, ?_⟩, rfl, rfl, ?_⟩
  · exact ((famc_fams_drop_amended noEngine 1 2 ("no id here")
      (createIndividualRecord ("@I1@")) [.record]).1 rfl).1
  · exact (((famc_fams_drop_amended noEngine 1 2 ("@@@")
      (createIndividualRecord ("@I1@")) [.record]).2 rfl) rfl).2

/-- C9, counterexample.  With `preferEarliest` set, of two otherwise-identical
candidates the one born CLOSER to the present scores strictly LOWER (the
bonus is `max(0, 2100 - year)/10`), refuting "the one born closer to the
present scores at least as high". -/
theorem recency_bonus_counterexample :
    rootScore { preferEarliest := true }
        { id := ("@LATE@"),
          birth := { date := some { raw := ("2000"), parsed := some 2000,
                                    display := ("2000") } } } <
      rootScore { preferEarliest := true }
        { id := ("@EARLY@"),
          birth := { date := some { raw := ("1900"), parsed := some 1900,
                                    display := ("1900") } } } := by
  have h : ¬ (("U" : String) = "F") := by decide
  simp [rootScore, h]
  norm_num [max_def]

/-- Replace the birth date of an individual (helper for stating C9). -/
def withBirthDate (p : Individual) (d : Option ParsedDate) : Individual :=
  { p with birth := { p.birth with date := d } }

/-- C9, amended.  In the scored-preference mode, (a) a candidate with a birth
date scores exactly 10 more than the same candidate without one, plus — when
`preferEarliest` is set and the date has a parsed year — an extra
`max(0, 2100 - year)/10`: a bonus proportional to how far the birth year
lies BEFORE 2100; hence (b) of two otherwise-identical candidates the one
born EARLIER (or equal) scores at least as high. -/
theorem birth_bonus_amended (prefs : RootPrefs) (p : Individual) (d : ParsedDate) :
    (rootScore prefs (withBirthDate p (some d)) =
      rootScore prefs (withBirthDate p none) + 10 +
        (if prefs.preferEarliest = true then
          (match d.parsed with
           | some year => (max 0 (2100 - (year : ℚ))) / 10
           | none => 0)
         else 0)) ∧
    (∀ y1 y2 : Int, prefs.preferEarliest = true → y1 ≤ y2 →
      rootScore prefs (withBirthDate p (some { d with parsed := some y2 })) ≤
        rootScore prefs (withBirthDate p (some { d with parsed := some y1 }))) := by
  constructor
  · cases hpe : prefs.preferEarliest <;> cases hd : d.parsed <;>
      simp [rootScore, withBirthDate, hpe, hd] <;> split_ifs <;> ring
  · intro y1 y2 hpe hle
    have h1 : (y1 : ℚ) ≤ (y2 : ℚ) := by exact_mod_cast hle
    have hbonus : (max 0 (2100 - (y2 : ℚ))) / 10 ≤ (max 0 (2100 - (y1 : ℚ))) / 10 := by
      gcongr
    simp only [rootScore, withBirthDate, hpe]
    split_ifs <;> simp <;> linarith

theorem birth_bonus_amended_witness :
    (rootScore { preferEarliest := true }
        (withBirthDate (createIndividualRecord ("@W@"))
          (some { raw := ("1950"), parsed := some 1950, display := ("1950") })) =
      rootScore { preferEarliest := true }
        (withBirthDate (createIndividualRecord ("@W@")) none) + 10 + 15) ∧
    ((1900 : Int) ≤ 1950 ∧
      rootScore { preferEarliest := true }
        (withBirthDate (createIndividualRecord ("@W@"))
          (some { raw := ("1950"), parsed := some 1950, display := ("1950") })) ≤
      rootScore { preferEarliest := true }
        (withBirthDate (createIndividualRecord ("@W@"))
          (some { raw := ("1950"), parsed := some 1900, display := ("1950") }))) := by
  constructor
  · rw [(birth_bonus_amended { preferEarliest := true }
      (createIndividualRecord ("@W@"))
      { raw := ("1950"), parsed := some 1950, display := ("1950") }).1]
    norm_num [max_def]
  · refine ⟨by decide, ?_⟩
    have h := (birth_bonus_amended { preferEarliest := true }
      (createIndividualRecord ("@W@"))
      { raw := ("1950"), parsed := some 1950, display := ("1950") }).2 1900 1950 rfl
      (by decide)
    simpa using h

/-- C4.  Stack truncation attributes dates correctly: in an individual record
with a `BIRT` substructure carrying a level-2 `DATE`, followed by a `DEAT`
substructure at the same level with its own level-2 `DATE`, the first date
value is attributed to the birth event and the second to the death event
(for every date engine and all date values) — the level-1 `DEAT` line pops
the `birth` marker before `death` is pushed. -/
theorem birt_deat_stack_attribution (engine : String → Option Int)
    (xid d1 d2 : String) :
    (match runLines engine
        [mkLine 0 (some xid) ("INDI") "" 1, mkLine 1 none ("BIRT") "" 2,
         mkLine 2 none ("DATE") d1 3, mkLine 1 none ("DEAT") "" 4,
         mkLine 2 none ("DATE") d2 5] initLState with
     | .ok st => (mapGet st.individuals xid).map
        (fun ind => (ind.birth.date, ind.death.date))
     | .error _ => none) = some (parseDate engine d1, parseDate engine d2) := by
  simp [runLines, stepLine, processIndividualField, mapGet, mapSet, initLState, mkLine]

/-- C3, counterexample.  Two `CHIL` lines with the same id under the same
`FAM` record yield a `children` array with that id twice: the parsed output
is NOT deduplicated. -/
theorem chil_dedup_counterexample :
    (resFamilies (parse noEngine ("0 @F1@ FAM\n1 CHIL @I1@\n1 CHIL @I1@"))).map
        (fun f => f.children) = [[("@I1@"), ("@I1@")]] ∧
    ¬ (∀ f ∈ resFamilies (parse noEngine ("0 @F1@ FAM\n1 CHIL @I1@\n1 CHIL @I1@")),
        f.children.Nodup) := by
  constructor
  · rfl
  · decide

/-- Every family record in the map has a duplicate-free `children` array. -/
def ChildrenNodup (fs : List (String × Family)) : Prop :=
  ∀ p ∈ fs, (p.2).children.Nodup

theorem childrenNodup_mapSet {fs : List (String × Family)} {k : String} {v : Family}
    (h : ChildrenNodup fs) (hv : v.children.Nodup) : ChildrenNodup (mapSet fs k v) := by
  intro p hp
  rcases mem_mapSet fs k v p hp with h1 | h1
  · exact h p h1
  · subst h1; exact hv

theorem famStepChild_childrenNodup (i fid : String) {fs : List (String × Family)}
    (h : ChildrenNodup fs) : ChildrenNodup (famStepChild i fs fid) := by
  unfold famStepChild
  cases hget : mapGet fs fid with
  | none => exact h
  | some family =>
    by_cases hmem : i ∈ family.children
    · simpa [hmem] using h
    · simp only [hmem, if_false]
      refine childrenNodup_mapSet h ?_
      have hfam : family.children.Nodup := h _ (mapGet_mem fs fid family hget)
      simp [List.nodup_append, hfam, hmem]

theorem famStepSpouse_childrenNodup (ind : Individual) (fid : String)
    {fs : List (String × Family)} (h : ChildrenNodup fs) :
    ChildrenNodup (famStepSpouse ind fs fid) := by
  unfold famStepSpouse
  cases hget : mapGet fs fid with
  | none => exact h
  | some family =>
    dsimp only
    have hfam : family.children.Nodup := h _ (mapGet_mem fs fid family hget)
    split
    · exact childrenNodup_mapSet h hfam
    · split
      · exact childrenNodup_mapSet h hfam
      · exact h

theorem foldl_childrenNodup {β : Type} (g : List (String × Family) → β → List (String × Family))
    (hg : ∀ fs b, ChildrenNodup fs → ChildrenNodup (g fs b)) :
    ∀ (l : List β) (fs : List (String × Family)),
      ChildrenNodup fs → ChildrenNodup (l.foldl g fs) := by
  intro l
  induction l with
  | nil => intro fs h; exact h
  | cons b rest ih => intro fs h; exact ih (g fs b) (hg fs b h)

/-- C3, amended.  `F.children` is NOT deduplicated against repeated `CHIL`
lines in the document (see the counterexample); deduplication holds only for
the reciprocal-repair pass: `linkFamilyRelationships` appends an id only
when it is not already present, so it never introduces a duplicate — if
every family's `children` array is duplicate-free before the post-pass, it
still is afterwards. -/
theorem link_preserves_children_nodup (fs : List (String × Family))
    (inds : List (String × Individual)) (h : ChildrenNodup fs) :
    ChildrenNodup (linkFamilyRelationships fs inds) := by
  unfold linkFamilyRelationships
  refine foldl_childrenNodup _ ?_ inds fs h
  intro fs ind hfs
  unfold linkOne
  refine foldl_childrenNodup _ ?_ _ _ (foldl_childrenNodup _ ?_ _ _ hfs)
  · intro fs b hh; exact famStepSpouse_childrenNodup _ _ hh
  · intro fs b hh; exact famStepChild_childrenNodup _ _ hh

theorem link_preserves_children_nodup_witness :
    ChildrenNodup [(("@F1@"), { id := ("@F1@"), children := [("@I1@")] })] ∧
    ChildrenNodup (linkFamilyRelationships
      [(("@F1@"), { id := ("@F1@"), children := [("@I1@")] })]
      [(("@I2@"), { id := ("@I2@"), families := { child := [("@F1@")] } })]) := by
  have h : ChildrenNodup [(("@F1@"), { id := ("@F1@"), children := [("@I1@")] })] := by
    intro p hp
    simp at hp
    subst hp
    decide
  exact ⟨h, link_preserves_children_nodup _ _ h⟩

/-! ### C5: what the reciprocal-repair pass actually guarantees -/

/-- Every `families.child` entry of `ind` that names an existing family is
reflected in that family's `children` array. -/
def childLinked (fs : List (String × Family)) (ind : Individual) : Prop :=
  ∀ fid ∈ ind.families.child, ∀ fam, mapGet fs fid = some fam →
    ind.id ∈ fam.children

/-- One repair step relates the family maps: every family still exists, with
the same id, and its `children` array only ever grows. -/
def FamStep (fs fs2 : List (String × Family)) : Prop :=
  ∀ fid fam2, mapGet fs2 fid = some fam2 →
    ∃ fam, mapGet fs fid = some fam ∧ fam.id = fam2.id ∧
      ∀ x ∈ fam.children, x ∈ fam2.children

theorem famStep_refl (fs : List (String × Family)) : FamStep fs fs :=
  fun _ fam2 h => ⟨fam2, h, rfl, fun _ hx => hx⟩

theorem famStep_trans {a b c : List (String × Family)}
    (h1 : FamStep a b) (h2 : FamStep b c) : FamStep a c := by
  intro fid fam2 hc
  obtain ⟨famB, hb, hidB, hsubB⟩ := h2 fid fam2 hc
  obtain ⟨famA, ha, hidA, hsubA⟩ := h1 fid famB hb
  exact ⟨famA, ha, hidA.trans hidB, fun x hx => hsubB x (hsubA x hx)⟩

theorem famStepChild_famStep (i fid : String) (fs : List (String × Family)) :
    FamStep fs (famStepChild i fs fid) := by
  unfold famStepChild
  cases hget : mapGet fs fid with
  | none => exact famStep_refl fs
  | some family =>
    dsimp only
    split
    · exact famStep_refl fs
    · intro fid2 fam2 hf2
      by_cases he : fid = fid2
      · subst he
        rw [mapGet_mapSet_self] at hf2
        injection hf2 with hf2
        subst hf2
        exact ⟨family, hget, rfl, fun x hx => by simp [hx]⟩
      · rw [mapGet_mapSet_ne _ _ _ _ he] at hf2
        exact ⟨fam2, hf2, rfl, fun _ hx => hx⟩

theorem famStepSpouse_famStep (ind : Individual) (fid : String)
    (fs : List (String × Family)) : FamStep fs (famStepSpouse ind fs fid) := by
  unfold famStepSpouse
  cases hget : mapGet fs fid with
  | none => exact famStep_refl fs
  | some family =>
    dsimp only
    split
    · intro fid2 fam2 hf2
      by_cases he : fid = fid2
      · subst he
        rw [mapGet_mapSet_self] at hf2
        injection hf2 with hf2
        subst hf2
        exact ⟨family, hget, rfl, fun _ hx => hx⟩
      · rw [mapGet_mapSet_ne _ _ _ _ he] at hf2
        exact ⟨fam2, hf2, rfl, fun _ hx => hx⟩
    · split
      · intro fid2 fam2 hf2
        by_cases he : fid = fid2
        · subst he
          rw [mapGet_mapSet_self] at hf2
          injection hf2 with hf2
          subst hf2
          exact ⟨family, hget, rfl, fun _ hx => hx⟩
        · rw [mapGet_mapSet_ne _ _ _ _ he] at hf2
          exact ⟨fam2, hf2, rfl, fun _ hx => hx⟩
      · exact famStep_refl fs

theorem foldl_famStep {β : Type}
    (g : List (String × Family) → β → List (String × Family))
    (hg : ∀ fs b, FamStep fs (g fs b)) :
    ∀ (l : List β) (fs : List (String × Family)), FamStep fs (l.foldl g fs) := by
  intro l
  induction l with
  | nil => intro fs; exact famStep_refl fs
  | cons b rest ih => intro fs; exact famStep_trans (hg fs b) (ih (g fs b))

theorem famStep_linkOne (fs : List (String × Family)) (ind : Individual) :
    FamStep fs (linkOne fs ind) := by
  unfold linkOne
  exact famStep_trans
    (foldl_famStep _ (fun fs b => famStepChild_famStep ind.id b fs) _ fs)
    (foldl_famStep _ (fun fs b => famStepSpouse_famStep ind b fs) _ _)

theorem pointLinked_mono {fs fs2 : List (String × Family)} {i fid : String}
    (h : ∀ fam, mapGet fs fid = some fam → i ∈ fam.children)
    (hstep : FamStep fs fs2) :
    ∀ fam2, mapGet fs2 fid = some fam2 → i ∈ fam2.children := by
  intro fam2 h2
  obtain ⟨fam, hget, _, hsub⟩ := hstep fid fam2 h2
  exact hsub i (h fam hget)

theorem childLinked_mono {fs fs2 : List (String × Family)} {ind : Individual}
    (h : childLinked fs ind) (hstep : FamStep fs fs2) : childLinked fs2 ind :=
  fun fid hfid => pointLinked_mono (h fid hfid) hstep

theorem childFold_establishes (i : String) :
    ∀ (l : List String) (fs : List (String × Family)),
      ∀ fid ∈ l, ∀ fam, mapGet (l.foldl (famStepChild i) fs) fid = some fam →
        i ∈ fam.children := by
  intro l
  induction l with
  | nil => intro fs fid hfid; simp at hfid
  | cons f0 rest ih =>
    intro fs fid hfid
    simp only [List.foldl_cons]
    rcases List.mem_cons.mp hfid with he | hrest
    · subst he
      have h1 : ∀ fam, mapGet (famStepChild i fs fid) fid = some fam →
          i ∈ fam.children := by
        unfold famStepChild
        cases hget : mapGet fs fid with
        | none => intro fam hf; rw [hget] at hf; cases hf
        | some family =>
          dsimp only
          split
          · intro fam hf
            rw [hget] at hf
            injection hf with hf
            subst hf
            assumption
          · intro fam hf
            rw [mapGet_mapSet_self] at hf
            injection hf with hf
            subst hf
            simp
      exact pointLinked_mono h1
        (foldl_famStep _ (fun fs b => famStepChild_famStep i b fs) rest _)
    · exact ih (famStepChild i fs f0) fid hrest

theorem linkOne_establishes (fs : List (String × Family)) (ind : Individual) :
    childLinked (linkOne fs ind) ind := by
  unfold linkOne
  intro fid hfid
  exact pointLinked_mono
    (childFold_establishes ind.id ind.families.child fs fid hfid)
    (foldl_famStep _ (fun fs b => famStepSpouse_famStep ind b fs) _ _)

theorem link_establishes :
    ∀ (inds : List (String × Individual)) (fs : List (String × Family))
      (k : String) (ind : Individual), (k, ind) ∈ inds →
      childLinked (linkFamilyRelationships fs inds) ind := by
  intro inds
  induction inds with
  | nil => intro fs k ind h; simp at h
  | cons p rest ih =>
    intro fs k ind hmem
    unfold linkFamilyRelationships
    simp only [List.foldl_cons]
    rcases List.mem_cons.mp hmem with he | hrest
    · have hind : ind = p.2 := by rw [← he]
      subst hind
      exact childLinked_mono (linkOne_establishes fs p.2)
        (foldl_famStep _ (fun fs b => famStep_linkOne fs b.2) rest _)
    · exact ih (linkOne fs p.2) k ind hrest

/-! ### C5: the family map is well keyed (key = record id, keys distinct) -/

def FamsWF (fs : List (String × Family)) : Prop :=
  (fs.map Prod.fst).Nodup ∧ ∀ p ∈ fs, (p.2).id = p.1

theorem famsWF_nil : FamsWF [] := ⟨List.nodup_nil, by simp⟩

theorem mapSet_cons_self {α : Type} (k0 : String) (v0 v : α) (m : List (String × α)) :
    mapSet ((k0, v0) :: m) k0 v = (k0, v) :: m := by
  simp [mapSet]

theorem mapSet_cons_ne {α : Type} (k0 k : String) (v0 v : α) (m : List (String × α))
    (h : k0 ≠ k) : mapSet ((k0, v0) :: m) k v = (k0, v0) :: mapSet m k v := by
  simp [mapSet, h]

theorem mem_keys_mapSet {α : Type} :
    ∀ (m : List (String × α)) (k : String) (v : α) (x : String),
      x ∈ (mapSet m k v).map Prod.fst → x ∈ m.map Prod.fst ∨ x = k := by
  intro m
  induction m with
  | nil => intro k v x hx; right; simpa [mapSet] using hx
  | cons p m ih =>
    intro k v x hx
    obtain ⟨k0, v0⟩ := p
    by_cases h : k0 = k
    · subst h
      rw [mapSet_cons_self] at hx
      rw [List.map_cons, List.mem_cons] at hx ⊢
      exact Or.inl hx
    · rw [mapSet_cons_ne _ _ _ _ _ h] at hx
      rw [List.map_cons, List.mem_cons] at hx
      rw [List.map_cons, List.mem_cons]
      rcases hx with hx | hx
      · exact Or.inl (Or.inl hx)
      · rcases ih k v x hx with h2 | h2
        · exact Or.inl (Or.inr h2)
        · exact Or.inr h2

theorem mapSet_famsWF :
    ∀ (m : List (String × Family)) (k : String) (v : Family),
      FamsWF m → v.id = k → FamsWF (mapSet m k v) := by
  intro m
  induction m with
  | nil =>
    intro k v _ hv
    refine ⟨by simp [mapSet], ?_⟩
    intro p hp
    simp [mapSet] at hp
    simp [hp, hv]
  | cons q m ih =>
    intro k v h hv
    obtain ⟨k0, v0⟩ := q
    obtain ⟨hnd, hid⟩ := h
    simp only [List.map_cons, List.nodup_cons] at hnd
    by_cases he : k0 = k
    · subst he
      rw [mapSet_cons_self]
      refine ⟨?_, ?_⟩
      · rw [List.map_cons, List.nodup_cons]
        simpa using hnd
      · intro p hp
        rcases List.mem_cons.mp hp with hp | hp
        · simp [hp, hv]
        · exact hid p (List.mem_cons_of_mem _ hp)
    · have htail : FamsWF m :=
        ⟨hnd.2, fun p hp => hid p (List.mem_cons_of_mem _ hp)⟩
      obtain ⟨hnd2, hid2⟩ := ih k v htail hv
      rw [mapSet_cons_ne _ _ _ _ _ he]
      refine ⟨?_, ?_⟩
      · rw [List.map_cons, List.nodup_cons]
        refine ⟨?_, hnd2⟩
        intro hk0
        rcases mem_keys_mapSet m k v k0 hk0 with h2 | h2
        · exact hnd.1 h2
        · exact he h2
      · intro p hp
        rcases List.mem_cons.mp hp with hp | hp
        · subst hp; exact hid (k0, v0) (List.mem_cons_self _ _)
        · exact hid2 p hp

theorem mapGet_of_mem_of_nodup {α : Type} :
    ∀ (m : List (String × α)) (k : String) (v : α),
      (m.map Prod.fst).Nodup → (k, v) ∈ m → mapGet m k = some v := by
  intro m
  induction m with
  | nil => intro k v _ h; simp at h
  | cons p m ih =>
    intro k v hnd hmem
    obtain ⟨k0, v0⟩ := p
    simp only [List.map_cons, List.nodup_cons] at hnd
    rcases List.mem_cons.mp hmem with he | hm
    · injection he with he1 he2
      subst he1; subst he2
      simp [mapGet]
    · have hne : k0 ≠ k := by
        intro hk; subst hk
        exact hnd.1 (List.mem_map.mpr ⟨(k0, v), hm, rfl⟩)
      simp only [mapGet_cons, if_neg hne]
      exact ih k v hnd.2 hm

theorem mem_values_mapGet {fs : List (String × Family)} (h : FamsWF fs)
    {fam : Family} (hm : fam ∈ fs.map Prod.snd) : mapGet fs fam.id = some fam := by
  obtain ⟨p, hp, he⟩ := List.mem_map.mp hm
  obtain ⟨k, v⟩ := p
  have he2 : v = fam := he
  subst he2
  have hid : v.id = k := h.2 (k, v) hp
  rw [hid]
  exact mapGet_of_mem_of_nodup _ _ _ h.1 hp

theorem processFamilyField_id (engine : String → Option Int) (line : Line)
    (fam : Family) (stack : List StackEntry) :
    (processFamilyField engine line fam stack).1.id = fam.id := by
  unfold processFamilyField
  repeat' split
  all_goals rfl

theorem stepLine_famsWF {engine : String → Option Int} {st st2 : LState}
    {line : Line} (h : FamsWF st.families)
    (hs : stepLine engine st line = .ok st2) : FamsWF st2.families := by
  unfold stepLine at hs
  by_cases hl : line.level = 0
  · rw [if_pos hl] at hs
    split at hs
    · injection hs with hs; subst hs; exact h
    · injection hs with hs; subst hs
      exact mapSet_famsWF _ _ _ h rfl
    · injection hs with hs; subst hs; exact h
  · rw [if_neg hl] at hs
    cases hcur : st.current with
    | none => rw [hcur] at hs; injection hs with hs; subst hs; exact h
    | some cur =>
      rw [hcur] at hs
      cases cur with
      | indi iid =>
        dsimp only at hs
        cases hget : mapGet st.individuals iid with
        | none => rw [hget] at hs; injection hs with hs; subst hs; exact h
        | some ind =>
          rw [hget] at hs
          dsimp only at hs
          cases hpf : processIndividualField engine line ind (st.stack.take line.level) with
          | ok r => rw [hpf] at hs; injection hs with hs; subst hs; exact h
          | error e => rw [hpf] at hs; cases hs
      | fam fid =>
        dsimp only at hs
        cases hget : mapGet st.families fid with
        | none => rw [hget] at hs; injection hs with hs; subst hs; exact h
        | some fam =>
          rw [hget] at hs
          dsimp only at hs
          injection hs with hs; subst hs
          refine mapSet_famsWF _ _ _ h ?_
          rw [processFamilyField_id]
          exact h.2 (fid, fam) (mapGet_mem _ _ _ hget)

theorem runLines_famsWF {engine : String → Option Int} :
    ∀ (ls : List Line) (st st2 : LState), FamsWF st.families →
      runLines engine ls st = .ok st2 → FamsWF st2.families := by
  intro ls
  induction ls with
  | nil =>
    intro st st2 h hr
    unfold runLines at hr
    injection hr with hr; subst hr; exact h
  | cons l ls ih =>
    intro st st2 h hr
    unfold runLines at hr
    cases hs : stepLine engine st l with
    | ok stm => rw [hs] at hr; exact ih stm st2 (stepLine_famsWF h hs) hr
    | error e => rw [hs] at hr; cases hr

theorem foldl_preserves {β : Type} (P : List (String × Family) → Prop)
    (g : List (String × Family) → β → List (String × Family))
    (hg : ∀ fs b, P fs → P (g fs b)) :
    ∀ (l : List β) (fs : List (String × Family)), P fs → P (l.foldl g fs) := by
  intro l
  induction l with
  | nil => intro fs h; exact h
  | cons b rest ih => intro fs h; exact ih (g fs b) (hg fs b h)

theorem famStepChild_famsWF (i fid : String) {fs : List (String × Family)}
    (h : FamsWF fs) : FamsWF (famStepChild i fs fid) := by
  unfold famStepChild
  cases hget : mapGet fs fid with
  | none => exact h
  | some family =>
    dsimp only
    split
    · exact h
    · exact mapSet_famsWF _ _ _ h (h.2 (fid, family) (mapGet_mem _ _ _ hget))

theorem famStepSpouse_famsWF (ind : Individual) (fid : String)
    {fs : List (String × Family)} (h : FamsWF fs) :
    FamsWF (famStepSpouse ind fs fid) := by
  unfold famStepSpouse
  cases hget : mapGet fs fid with
  | none => exact h
  | some family =>
    dsimp only
    have hfid : family.id = fid := h.2 (fid, family) (mapGet_mem _ _ _ hget)
    split
    · exact mapSet_famsWF _ _ _ h hfid
    · split
      · exact mapSet_famsWF _ _ _ h hfid
      · exact h

theorem link_famsWF (fs : List (String × Family))
    (inds : List (String × Individual)) (h : FamsWF fs) :
    FamsWF (linkFamilyRelationships fs inds) := by
  unfold linkFamilyRelationships
  refine foldl_preserves FamsWF _ ?_ inds fs h
  intro fs ind hfs
  unfold linkOne
  refine foldl_preserves FamsWF _ ?_ _ _ (foldl_preserves FamsWF _ ?_ _ _ hfs)
  · intro fs b hh; exact famStepSpouse_famsWF ind.2 b hh
  · intro fs b hh; exact famStepChild_famsWF ind.2.id b hh

/-- C5, counterexample.  A `CHIL` line pointing at an existing individual
that has no reciprocal `FAMC` line: after the full parse the family lists
the child, the individual exists in the mapping, but its `families.child`
does NOT include the family id, and the id was already in `children` before
the post-pass — so it was not appended by the reciprocal-repair pass either.
The claimed disjunction fails at this input. -/
theorem children_reciprocal_counterexample :
    (resIndividuals (parse noEngine ("0 @I1@ INDI\n0 @F1@ FAM\n1 CHIL @I1@"))).map
        (fun i => (i.id, i.families.child)) = [(("@I1@"), [])] ∧
    (resFamilies (parse noEngine ("0 @I1@ INDI\n0 @F1@ FAM\n1 CHIL @I1@"))).map
        (fun f => (f.id, f.children)) = [(("@F1@"), [("@I1@")])] ∧
    (match runLines noEngine
        (preprocessLines ("0 @I1@ INDI\n0 @F1@ FAM\n1 CHIL @I1@")).1 initLState with
     | .ok st => st.families.map (fun p => (p.2).children)
     | .error _ => []) = [[("@I1@")]] := by
  refine ⟨rfl, rfl, rfl⟩

/-- C5, amended.  The guarantee runs in the reciprocal direction: after a
successful parse, for every individual in the output and every id `f` in its
`families.child`, every family of the output whose id is `f` lists that
individual among its `children` (either the document's `CHIL` line put it
there, or the repair pass appended it).  The claimed direction — that every
`CHIL`-listed child with an individual record has the family in its
`families.child` — is refuted by the counterexample. -/
theorem famc_children_roundtrip (engine : String → Option Int) (content : String)
    (inds : List Individual) (fams : List Family) (stats : ParseStats)
    (errs warns : List String)
    (hp : parse engine content = .success inds fams stats errs warns) :
    ∀ ind ∈ inds, ∀ fid ∈ ind.families.child, ∀ fam ∈ fams, fam.id = fid →
      ind.id ∈ fam.children := by
  unfold parse at hp
  dsimp only at hp
  cases hr : runLines engine (preprocessLines content).1 initLState with
  | error e => rw [hr] at hp; cases hp
  | ok st =>
    rw [hr] at hp
    injection hp with h1 h2 h3 h4 h5
    subst h1; subst h2
    intro ind hind fid hfid fam hfam hid
    have hWFst : FamsWF st.families := runLines_famsWF _ initLState st famsWF_nil hr
    have hWF2 : FamsWF (linkFamilyRelationships st.families st.individuals) :=
      link_famsWF _ _ hWFst
    obtain ⟨p, hpmem, hpe⟩ := List.mem_map.mp hind
    obtain ⟨k, iv⟩ := p
    have hpe2 : iv = ind := hpe
    subst hpe2
    have hCL : childLinked (linkFamilyRelationships st.families st.individuals) iv :=
      link_establishes st.individuals st.families k iv hpmem
    have hget : mapGet (linkFamilyRelationships st.families st.individuals) fam.id =
        some fam := mem_values_mapGet hWF2 hfam
    rw [hid] at hget
    exact hCL fid hfid fam hget

theorem famc_children_roundtrip_witness :
    (parse noEngine ("0 @I1@ INDI\n1 FAMC @F1@\n0 @F1@ FAM") =
      .success [{ id := ("@I1@"), families := { child := [("@F1@")] } }]
        [{ id := ("@F1@"), children := [("@I1@")] }]
        { individuals := 1, families := 1, errors := 0, warnings := 0 } [] []) ∧
    (("@I1@") : String) ∈
      ({ id := ("@F1@"), children := [("@I1@")] } : Family).children := by
  refine ⟨rfl, ?_⟩
  exact famc_children_roundtrip noEngine ("0 @I1@ INDI\n1 FAMC @F1@\n0 @F1@ FAM")
    _ _ _ _ _ rfl
    { id := ("@I1@"), families := { child := [("@F1@")] } } (by decide)
    ("@F1@") (by decide)
    { id := ("@F1@"), children := [("@I1@")] } (by decide) rfl

/-! ### C6: the generation bound of the traversals -/

theorem inTree_withRel {n t : TreeNode} {r : String}
    (h : InTree n (t.withRelationship r)) :
    n.generation = t.generation ∨ InTree n t := by
  cases h with
  | here => left; simp
  | viaChild hc hm hsub => right; exact InTree.viaChild (by simpa using hc) hm hsub
  | viaParent hp hm hsub => right; exact InTree.viaParent (by simpa using hp) hm hsub

theorem buildAncestorTree_inversion {inds : List (String × Individual)}
    {fams : List (String × Family)} {maxGen : Int} {pid : String} {g : Nat}
    {t : TreeNode} (h : buildAncestorTree inds fams maxGen pid g = some t) :
    t.generation = g ∧ (g : Int) < maxGen ∧
    ∀ cs, (t.children = some cs ∨ t.parents = some cs) →
      ∀ c ∈ cs, ∃ pid2 c2 rel,
        buildAncestorTree inds fams maxGen pid2 (g + 1) = some c2 ∧
        c = c2.withRelationship rel := by
  rw [buildAncestorTree] at h
  cases hget : mapGet inds pid with
  | none => rw [hget] at h; cases h
  | some person =>
    rw [hget] at h
    dsimp only at h
    split at h
    · cases h
    · next hlt =>
      refine ⟨?_, by omega, ?_⟩
      · split at h <;> (injection h with h; subst h; rfl)
      · split at h <;> (injection h with h; subst h)
        · intro cs hcs
          rcases hcs with hcs | hcs <;> simp [createTreeNode] at hcs
        · intro cs hcs c hc
          rcases hcs with hcs | hcs
          all_goals
            simp only [TreeNode.children_mk, TreeNode.parents_mk] at hcs
            injection hcs with hcs
            subst hcs
            split at hc
            · simp at hc
            · split at hc
              · simp at hc
              · rcases List.mem_append.mp hc with hcc | hcc
                · split at hcc
                  · split at hcc
                    · next father hfa =>
                      simp at hcc
                      exact ⟨_, father, ("father"), hfa, hcc⟩
                    · simp at hcc
                  · simp at hcc
                · split at hcc
                  · split at hcc
                    · next mother hmo =>
                      simp at hcc
                      exact ⟨_, mother, ("mother"), hmo, hcc⟩
                    · simp at hcc
                  · simp at hcc

theorem mem_foldl_append {α β : Type} (f : β → List α) :
    ∀ (l : List β) (acc : List α) (x : α),
      x ∈ l.foldl (fun a b => a ++ f b) acc → x ∈ acc ∨ ∃ b ∈ l, x ∈ f b := by
  intro l
  induction l with
  | nil => intro acc x h; exact Or.inl h
  | cons b rest ih =>
    intro acc x h
    simp only [List.foldl_cons] at h
    rcases ih (acc ++ f b) x h with h2 | h2
    · rcases List.mem_append.mp h2 with h3 | h3
      · exact Or.inl h3
      · exact Or.inr ⟨b, List.mem_cons_self _ _, h3⟩
    · obtain ⟨b2, hb2, hx⟩ := h2
      exact Or.inr ⟨b2, List.mem_cons_of_mem _ hb2, hx⟩

theorem buildDescendantTree_inversion {inds : List (String × Individual)}
    {fams : List (String × Family)} {maxGen : Int} {pid : String} {g : Nat}
    {t : TreeNode} (h : buildDescendantTree inds fams maxGen pid g = some t) :
    t.generation = g ∧ (g : Int) < maxGen ∧
    ∀ cs, (t.children = some cs ∨ t.parents = some cs) →
      ∀ c ∈ cs, ∃ pid2 c2 rel,
        buildDescendantTree inds fams maxGen pid2 (g + 1) = some c2 ∧
        c = c2.withRelationship rel := by
  rw [buildDescendantTree] at h
  cases hget : mapGet inds pid with
  | none => rw [hget] at h; cases h
  | some person =>
    rw [hget] at h
    dsimp only at h
    split at h
    · cases h
    · next hlt =>
      refine ⟨?_, by omega, ?_⟩
      · split at h <;> (injection h with h; subst h; rfl)
      · split at h <;> (injection h with h; subst h)
        · intro cs hcs
          rcases hcs with hcs | hcs <;> simp [createTreeNode] at hcs
        · intro cs hcs c hc
          rcases hcs with hcs | hcs
          · simp only [TreeNode.children_mk] at hcs
            injection hcs with hcs
            subst hcs
            rcases mem_foldl_append _ _ _ _ hc with hce | ⟨fid2, _, hx⟩
            · simp at hce
            · split at hx
              · rcases mem_foldl_append _ _ _ _ hx with hce | ⟨cid, _, hx2⟩
                · simp at hce
                · split at hx2
                  · next child hch =>
                    simp at hx2
                    exact ⟨_, child, ("child"), hch, hx2⟩
                  · simp at hx2
              · simp at hx
          · simp only [TreeNode.parents_mk] at hcs
            cases hcs

theorem buildAncestorTree_gen_lt {inds : List (String × Individual)}
    {fams : List (String × Family)} {maxGen : Int} :
    ∀ (k : Nat) (pid : String) (g : Nat) (t n : TreeNode),
      (maxGen - g).toNat ≤ k →
      buildAncestorTree inds fams maxGen pid g = some t →
      InTree n t → (n.generation : Int) < maxGen := by
  intro k
  induction k with
  | zero =>
    intro pid g t n hk hb _
    have h2 := (buildAncestorTree_inversion hb).2.1
    omega
  | succ k ih =>
    intro pid g t n hk hb hin
    obtain ⟨hgen, hlt, hkids⟩ := buildAncestorTree_inversion hb
    cases hin with
    | here => rw [hgen]; exact hlt
    | viaChild hc hm hsub =>
      obtain ⟨pid2, c2, rel, hb2, hce⟩ := hkids _ (Or.inl hc) _ hm
      subst hce
      rcases inTree_withRel hsub with hgen2 | hin2
      · have h3 := buildAncestorTree_inversion hb2
        rw [hgen2, h3.1]
        exact h3.2.1
      · exact ih pid2 (g + 1) c2 n (by omega) hb2 hin2
    | viaParent hp hm hsub =>
      obtain ⟨pid2, c2, rel, hb2, hce⟩ := hkids _ (Or.inr hp) _ hm
      subst hce
      rcases inTree_withRel hsub with hgen2 | hin2
      · have h3 := buildAncestorTree_inversion hb2
        rw [hgen2, h3.1]
        exact h3.2.1
      · exact ih pid2 (g + 1) c2 n (by omega) hb2 hin2

theorem buildDescendantTree_gen_lt {inds : List (String × Individual)}
    {fams : List (String × Family)} {maxGen : Int} :
    ∀ (k : Nat) (pid : String) (g : Nat) (t n : TreeNode),
      (maxGen - g).toNat ≤ k →
      buildDescendantTree inds fams maxGen pid g = some t →
      InTree n t → (n.generation : Int) < maxGen := by
  intro k
  induction k with
  | zero =>
    intro pid g t n hk hb _
    have h2 := (buildDescendantTree_inversion hb).2.1
    omega
  | succ k ih =>
    intro pid g t n hk hb hin
    obtain ⟨hgen, hlt, hkids⟩ := buildDescendantTree_inversion hb
    cases hin with
    | here => rw [hgen]; exact hlt
    | viaChild hc hm hsub =>
      obtain ⟨pid2, c2, rel, hb2, hce⟩ := hkids _ (Or.inl hc) _ hm
      subst hce
      rcases inTree_withRel hsub with hgen2 | hin2
      · have h3 := buildDescendantTree_inversion hb2
        rw [hgen2, h3.1]
        exact h3.2.1
      · exact ih pid2 (g + 1) c2 n (by omega) hb2 hin2
    | viaParent hp hm hsub =>
      obtain ⟨pid2, c2, rel, hb2, hce⟩ := hkids _ (Or.inr hp) _ hm
      subst hce
      rcases inTree_withRel hsub with hgen2 | hin2
      · have h3 := buildDescendantTree_inversion hb2
        rw [hgen2, h3.1]
        exact h3.2.1
      · exact ih pid2 (g + 1) c2 n (by omega) hb2 hin2

/-- C6.  For every individual/family mapping, every root id present in the
mapping, and every `maxGenerations = m ≥ 1`, every node of the tree built by
`buildTree` with tree type `ancestors` or `descendants` has generation `g`
with `0 ≤ g ≤ m - 1`: a node at generation `≥ m` is never produced. -/
theorem generation_bound (inds : List (String × Individual))
    (fams : List (String × Family)) (rootId : String) (m : Int)
    (ttype : String) (opts : BuildOptions) (r : TreeResult) (t n : TreeNode)
    (hm : opts.maxGenerations = some m) (hm1 : 1 ≤ m)
    (ht : opts.treeType = some ttype)
    (htt : ttype = "ancestors" ∨ ttype = "descendants")
    (hb : buildTree inds fams rootId opts = .ok r)
    (hroot : r.root = some t) (hin : InTree n t) :
    0 ≤ (n.generation : Int) ∧ (n.generation : Int) ≤ m - 1 := by
  refine ⟨Int.natCast_nonneg _, ?_⟩
  unfold buildTree at hb
  rw [hm, ht] at hb
  simp only [Option.getD_some] at hb
  cases hget : mapGet inds rootId with
  | none => rw [hget] at hb; cases hb
  | some person =>
    rw [hget] at hb
    dsimp only at hb
    rcases htt with htt | htt
    · subst htt
      rw [if_pos rfl] at hb
      dsimp only at hb
      injection hb with hb
      subst hb
      dsimp only at hroot
      have := buildAncestorTree_gen_lt ((m - (0 : Nat)).toNat) rootId 0 t n
        (le_refl _) hroot hin
      omega
    · subst htt
      rw [if_neg (by decide), if_pos rfl] at hb
      dsimp only at hb
      injection hb with hb
      subst hb
      dsimp only at hroot
      have := buildDescendantTree_gen_lt ((m - (0 : Nat)).toNat) rootId 0 t n
        (le_refl _) hroot hin
      omega

theorem generation_bound_witness :
    (∃ r : TreeResult,
      buildTree [(("@A@"), createIndividualRecord ("@A@"))] [] ("@A@")
          { maxGenerations := some 1, treeType := some ("ancestors") } = .ok r ∧
      r.root = some (TreeNode.mk ("@A@") 0 none none none)) ∧
    0 ≤ ((TreeNode.mk ("@A@") 0 none none none).generation : Int) ∧
    ((TreeNode.mk ("@A@") 0 none none none).generation : Int) ≤ 1 - 1 := by
  have hanc : buildAncestorTree [(("@A@"), createIndividualRecord ("@A@"))] [] 1
      ("@A@") 0 = some (TreeNode.mk ("@A@") 0 none none none) := by
    rw [buildAncestorTree]
    norm_num [mapGet, createIndividualRecord, createTreeNode]
  have hb : buildTree [(("@A@"), createIndividualRecord ("@A@"))] [] ("@A@")
      { maxGenerations := some 1, treeType := some ("ancestors") } =
      .ok { root := some (TreeNode.mk ("@A@") 0 none none none),
            metadata := { rootPersonId := ("@A@"), treeType := ("ancestors"),
                          maxGenerations := 1, totalNodes := 1,
                          includeSpouses := true, includeSiblings := false } } := by
    unfold buildTree
    simp [mapGet, hanc, countNodes, TreeNode.count, countOptList]
  refine ⟨⟨_, hb, rfl⟩, ?_⟩
  exact generation_bound [(("@A@"), createIndividualRecord ("@A@"))] [] ("@A@")
    1 ("ancestors") { maxGenerations := some 1, treeType := some ("ancestors") }
    _ _ _ rfl (by decide) rfl (Or.inl rfl) hb rfl (InTree.here _)

/-- C7.  `buildTree` raises exactly two error conditions: a "not found" error
whenever the root id is absent from the individual mapping (no partial tree),
an "Unknown tree type" error whenever the root is present but the effective
tree type is none of ancestors/descendants/both; for a present root and a
recognized tree type it returns normally. -/
theorem buildTree_error_conditions (inds : List (String × Individual))
    (fams : List (String × Family)) (rootId : String) (opts : BuildOptions) :
    (mapGet inds rootId = none →
      buildTree inds fams rootId opts =
        .error ("Person with ID " ++ rootId ++ " not found")) ∧
    (∀ p, mapGet inds rootId = some p →
      opts.treeType.getD ("ancestors") ∉
        (["ancestors", "descendants", "both"] : List String) →
      buildTree inds fams rootId opts =
        .error ("Unknown tree type: " ++ opts.treeType.getD ("ancestors"))) ∧
    (∀ p, mapGet inds rootId = some p →
      opts.treeType.getD ("ancestors") ∈
        (["ancestors", "descendants", "both"] : List String) →
      ∃ r, buildTree inds fams rootId opts = .ok r) := by
  refine ⟨?_, ?_, ?_⟩
  · intro h
    unfold buildTree
    rw [h]
  · intro p hp hmem
    simp only [List.mem_cons, List.not_mem_nil, or_false, not_or] at hmem
    obtain ⟨h1, h2, h3⟩ := hmem
    unfold buildTree
    rw [hp]
    dsimp only
    rw [if_neg h1, if_neg h2, if_neg h3]
  · intro p hp hmem
    simp only [List.mem_cons, List.not_mem_nil, or_false] at hmem
    unfold buildTree
    rw [hp]
    dsimp only
    rcases hmem with h | h | h <;> rw [h] <;> simp

theorem buildTree_error_conditions_witness :
    (mapGet ([] : List (String × Individual)) ("@NOPE@") = none ∧
      buildTree [] [] ("@NOPE@") {} =
        .error ("Person with ID " ++ ("@NOPE@") ++ " not found")) ∧
    (mapGet [(("@A@"), createIndividualRecord ("@A@"))] ("@A@") =
        some (createIndividualRecord ("@A@")) ∧
      (({ treeType := some ("weird") } : BuildOptions)).treeType.getD ("ancestors") ∉
        (["ancestors", "descendants", "both"] : List String) ∧
      buildTree [(("@A@"), createIndividualRecord ("@A@"))] [] ("@A@")
          { treeType := some ("weird") } =
        .error ("Unknown tree type: " ++ ("weird"))) ∧
    (∃ r, buildTree [(("@A@"), createIndividualRecord ("@A@"))] [] ("@A@")
        { treeType := some ("descendants") } = .ok r) := by
  refine ⟨⟨rfl, ?_⟩, ⟨rfl, by decide, ?_⟩, ?_⟩
  · exact (buildTree_error_conditions [] [] ("@NOPE@") {}).1 rfl
  · exact (buildTree_error_conditions [(("@A@"), createIndividualRecord ("@A@"))]
      [] ("@A@") { treeType := some ("weird") }).2.1 _ rfl (by decide)
  · exact (buildTree_error_conditions [(("@A@"), createIndividualRecord ("@A@"))]
      [] ("@A@") { treeType := some ("descendants") }).2.2 _ rfl (by decide)

/-- C10.  With a root id present in the mapping and `maxGenerations ≤ 0`,
`buildTree` raises no error for any of the three recognized tree types: it
returns normally with a `null` root and `metadata.totalNodes = 0` (the
traversal prunes immediately since generation 0 already reaches the bound). -/
theorem buildTree_zero_generations (inds : List (String × Individual))
    (fams : List (String × Family)) (rootId : String) (opts : BuildOptions)
    (p : Individual) (m : Int) (ttype : String)
    (hroot : mapGet inds rootId = some p)
    (hm : opts.maxGenerations = some m) (hm0 : m ≤ 0)
    (ht : opts.treeType = some ttype)
    (htt : ttype ∈ (["ancestors", "descendants", "both"] : List String)) :
    ∃ r, buildTree inds fams rootId opts = .ok r ∧ r.root = none ∧
      r.metadata.totalNodes = 0 := by
  have hanc : ∀ pid, buildAncestorTree inds fams m pid 0 = none := by
    intro pid
    rw [buildAncestorTree]
    cases mapGet inds pid with
    | none => rfl
    | some person =>
      dsimp only
      rw [dif_pos (by omega : ((0 : Nat) : Int) ≥ m)]
  have hdesc : ∀ pid, buildDescendantTree inds fams m pid 0 = none := by
    intro pid
    rw [buildDescendantTree]
    cases mapGet inds pid with
    | none => rfl
    | some person =>
      dsimp only
      rw [dif_pos (by omega : ((0 : Nat) : Int) ≥ m)]
  have hboth : buildCombinedTree inds fams m rootId = none := by
    unfold buildCombinedTree
    rw [hanc rootId, hdesc rootId]
  simp only [List.mem_cons, List.not_mem_nil, or_false] at htt
  unfold buildTree
  rw [hroot, hm, ht]
  simp only [Option.getD_some]
  rcases htt with h | h | h <;> rw [h] <;> simp [hanc, hdesc, hboth, countNodes]

theorem buildTree_zero_generations_witness :
    (mapGet [(("@A@"), createIndividualRecord ("@A@"))] ("@A@") =
        some (createIndividualRecord ("@A@")) ∧
      (({ maxGenerations := some 0, treeType := some ("both") } :
          BuildOptions)).maxGenerations = some 0 ∧
      (0 : Int) ≤ 0 ∧
      (("both") : String) ∈ (["ancestors", "descendants", "both"] : List String)) ∧
    (∃ r, buildTree [(("@A@"), createIndividualRecord ("@A@"))] [] ("@A@")
        { maxGenerations := some 0, treeType := some ("both") } = .ok r ∧
      r.root = none ∧ r.metadata.totalNodes = 0) := by
  refine ⟨⟨rfl, rfl, by decide, by decide⟩, ?_⟩
  exact buildTree_zero_generations [(("@A@"), createIndividualRecord ("@A@"))]
    [] ("@A@") { maxGenerations := some 0, treeType := some ("both") }
    (createIndividualRecord ("@A@")) 0 ("both") rfl rfl (by decide) rfl (by decide)

end Gedcom
